import Mathlib

/-!
# Verification of `rack.py` — a local, per-project log-store utility

Shallow embedding of the core of `src/rack.py` (commit creation `store`,
restoration `dump`, re-identification `add_tags`, fingerprint derivation
`hash_commit`, and the compression helpers `compress_file` /
`decompress_file`) together with proofs of the spec's testable properties.

Modelling conventions:
* File contents are byte lists (`Bytes := List Nat`).
* Python dicts (the index, a directory's files) are association lists with
  insertion order preserved and key-overwrite semantics (`upsert`).
* External library primitives — `hashlib.sha256(...).hexdigest()[:12]`,
  the `zstandard` compressor/decompressor, `tarfile` packing/unpacking and
  `fnmatch.fnmatch` — are parameters of the embedding (record `Ext`):
  the repository treats them as external collaborators and their internals
  are not part of this program.
* `sys.exit(message)` is modelled as `Except.error (message, state)` where
  the carried state is the on-disk state at the moment of exit.
-/

namespace Rack

/-- File contents: a sequence of bytes. -/
abbrev Bytes := List Nat

/-- Association-list lookup (Python `d[k]` / `k in d`). -/
def alookup {α : Type} : List (String × α) → String → Option α
  | [], _ => none
  | (k, v) :: t, key => if k = key then some v else alookup t key

/-- Python dict assignment `d[k] = v` (also `open(dst, "wb")` overwriting
a file in a directory): replace the binding in place if the key is
present, otherwise append (insertion order preserved). -/
def upsert {α : Type} : List (String × α) → String → α → List (String × α)
  | [], k, v => [(k, v)]
  | e :: t, k, v => if e.1 = k then (k, v) :: t else e :: upsert t k v

/-- Python `del d[k]` / `d.pop(k, None)`. -/
def eraseKey {α : Type} (l : List (String × α)) (k : String) :
    List (String × α) :=
  l.filter (fun e => ¬ e.1 = k)

/-- Python `{**old, **new}` and `old.update(new)`: keys of `old` keep their
position with values overridden by `new` where present; keys only in `new`
are appended in order. -/
def dictMerge (old new_ : List (String × String)) : List (String × String) :=
  old.map (fun kv => (kv.1, (alookup new_ kv.1).getD kv.2)) ++
    new_.filter (fun kv => (alookup old kv.1).isNone)

/-- The configuration document `.rack/rack.json` (recognized options used by
the core, `rack.py` lines 32-38). -/
structure Config where
  input_dir : String
  exclude : List String
  preserve_structure : Bool
  compress_mode : String
  zstd_level : Nat
deriving DecidableEq

/-- One commit record — the value stored under a fingerprint key in
`index.json` (`rack.py` lines 193-201). The creation timestamp is the
`date` string passed in by the caller (`datetime.now()` is external). -/
structure CommitEntry where
  msg : String
  date : String
  size_bytes : Nat
  files : Nat
  path : String
  input_dir : String
  tags : List (String × String)
deriving DecidableEq

/-- The persistent state of a rack project: the index document
(fingerprint → commit record) and the store directory on disk
(fingerprint → that commit's directory, itself a mapping from
relative file path to file bytes). -/
structure RackState where
  index : List (String × CommitEntry)
  storeDirs : List (String × List (String × Bytes))
deriving DecidableEq

/-- External primitives the core calls into, kept abstract:
* `H` — `hashlib.sha256(key.encode()).hexdigest()[:12]` as one function
  from the key string to the fingerprint string;
* `C lvl` / `D` — `zstandard` one-shot compression at a level and
  decompression (`cctx.compress` / `dctx.decompress`);
* `pack` / `unpack` — `tarfile` archive creation from (arcname, bytes)
  members and member extraction;
* `fnmatch rel pat` — `fnmatch.fnmatch`, shell-style glob matching. -/
structure Ext where
  H : String → String
  C : Nat → Bytes → Bytes
  D : Bytes → Bytes
  pack : List (String × Bytes) → Bytes
  unpack : Bytes → List (String × Bytes)
  fnmatch : String → String → Bool

/-! ## Fingerprint derivation (`hash_commit`, lines 107-109) -/

/-- Python string comparison `s1 < s2`: lexicographic by Unicode code
point. Written over `Char.toNat` so it computes by kernel reduction. -/
def charsLt : List Char → List Char → Bool
  | _, [] => false
  | [], _ :: _ => true
  | a :: as, b :: bs =>
    if a.toNat < b.toNat then true
    else if b.toNat < a.toNat then false
    else charsLt as bs

/-- Python `a < b` on strings. -/
def strLt (a b : String) : Bool := charsLt a.data b.data

theorem charsLt_iff : ∀ as bs : List Char, charsLt as bs = true ↔ as < bs := by
  intro as
  induction as with
  | nil =>
    intro bs
    cases bs with
    | nil =>
      show false = true ↔ _
      simp only [Bool.false_eq_true, false_iff]
      intro h; cases h
    | cons b bs =>
      show true = true ↔ _
      simp only [true_iff]
      exact List.nil_lt_cons b bs
  | cons a as ih =>
    intro bs
    cases bs with
    | nil =>
      show false = true ↔ _
      simp only [Bool.false_eq_true, false_iff]
      intro h; cases h
    | cons b bs =>
      show (if a.toNat < b.toNat then true
            else if b.toNat < a.toNat then false else charsLt as bs) = true ↔ _
      rcases lt_trichotomy a.toNat b.toNat with h | h | h
      · simp only [h, if_true, true_iff]
        exact List.Lex.rel h
      · have hab : a = b := Char.eq_of_val_eq (UInt32.ext h)
        subst hab
        simp only [lt_irrefl, if_false, ih bs]
        constructor
        · exact fun hl => List.Lex.cons hl
        · intro hl
          cases hl with
          | cons h' => exact h'
          | rel h' => exact absurd h' (lt_irrefl _)
      · have h1 : ¬ a.toNat < b.toNat := Nat.lt_asymm h
        rw [if_neg h1, if_pos h]
        simp only [Bool.false_eq_true, false_iff]
        intro hl
        cases hl with
        | cons h' => exact Nat.lt_irrefl _ h
        | rel h' => exact absurd h' (Nat.lt_asymm h)

theorem strLt_iff (a b : String) : strLt a b = true ↔ a < b := by
  rw [String.lt_iff_toList_lt]
  exact charsLt_iff a.data b.data

/-- The order Python's `sorted` uses on `tags.items()`: lexicographic on
the (key, value) pair of strings. -/
def tagLe (a b : String × String) : Prop :=
  strLt a.1 b.1 = true ∨ (a.1 = b.1 ∧ strLt b.2 a.2 = false)

instance : DecidableRel tagLe := fun a b =>
  @instDecidableOr _ _ (instDecidableEqBool _ _)
    (@instDecidableAnd _ _ (String.decEq a.1 b.1) (instDecidableEqBool _ _))

theorem tagLe_iff (a b : String × String) :
    tagLe a b ↔ a.1 < b.1 ∨ (a.1 = b.1 ∧ a.2 ≤ b.2) := by
  unfold tagLe
  rw [strLt_iff, Bool.eq_false_iff, Ne, strLt_iff, not_lt]

instance : IsTotal (String × String) tagLe where
  total a b := by
    rw [tagLe_iff, tagLe_iff]
    rcases lt_trichotomy a.1 b.1 with h | h | h
    · exact Or.inl (Or.inl h)
    · rcases le_total a.2 b.2 with h2 | h2
      · exact Or.inl (Or.inr ⟨h, h2⟩)
      · exact Or.inr (Or.inr ⟨h.symm, h2⟩)
    · exact Or.inr (Or.inl h)

instance : IsTrans (String × String) tagLe where
  trans a b c hab hbc := by
    rw [tagLe_iff] at hab hbc ⊢
    rcases hab with h1 | ⟨e1, l1⟩
    · rcases hbc with h2 | ⟨e2, _⟩
      · exact Or.inl (h1.trans h2)
      · exact Or.inl (e2 ▸ h1)
    · rcases hbc with h2 | ⟨e2, l2⟩
      · exact Or.inl (e1 ▸ h2)
      · exact Or.inr ⟨e1.trans e2, l1.trans l2⟩

instance : IsAntisymm (String × String) tagLe where
  antisymm a b hab hba := by
    rw [tagLe_iff] at hab hba
    rcases hab with h1 | ⟨e1, l1⟩
    · rcases hba with h2 | ⟨e2, _⟩
      · exact absurd h2 (lt_asymm h1)
      · exact absurd h1 (e2 ▸ lt_irrefl b.1)
    · rcases hba with h2 | ⟨_, l2⟩
      · exact absurd h2 (e1 ▸ lt_irrefl a.1)
      · exact Prod.ext e1 (le_antisymm l1 l2)

/-- Python `sorted(tags.items())`. Insertion sort computes the same list:
for a total, transitive, antisymmetric order the sorted permutation is
unique. -/
def sortTags (tags : List (String × String)) : List (String × String) :=
  List.insertionSort tagLe tags

/-- The canonical key string hashed by `hash_commit`:
`msg + "|" + "|".join(f"{k}={v}" for k, v in sorted(tags.items()))`. -/
def commitKey (msg : String) (tags : List (String × String)) : String :=
  msg ++ "|" ++ String.intercalate "|"
    ((sortTags tags).map (fun kv => kv.1 ++ "=" ++ kv.2))

/-- `hash_commit(msg, tags)` (lines 107-109): digest-and-truncate `H`
applied to the canonical key. -/
def hash_commit (H : String → String) (msg : String)
    (tags : List (String × String)) : String :=
  H (commitKey msg tags)

/-! ## Compression helpers (`compress_file` / `decompress_file`, lines 111-119) -/

/-- `compress_file(src, dst, level)`: the bytes written to `dst`.
The body is `fdst.write(cctx.compress(fsrc.read()))`. -/
def compress_file (ext : Ext) (level : Nat) (src : Bytes) : Bytes :=
  ext.C level src

/-- `decompress_file(src, dst)`: the bytes written to `dst`. -/
def decompress_file (ext : Ext) (src : Bytes) : Bytes :=
  ext.D src

/-- The sizes of the `read` calls `compress_file` issues on its source:
`fsrc.read()` with no size argument reads the entire file in one call, so
the trace is a single read of the whole length. -/
def compress_file_reads (src : Bytes) : List Nat :=
  [src.length]

/-- The sizes of the `read` calls `decompress_file` issues on its source:
likewise a single whole-file `fsrc.read()`. -/
def decompress_file_reads (src : Bytes) : List Nat :=
  [src.length]

/-! ## Path helpers -/

/-- The characters after the last `/`: scan keeping the current path
component, resetting it at every separator. -/
def baseNameChars : List Char → List Char → List Char
  | [], acc => acc.reverse
  | c :: cs, acc => if c = '/' then baseNameChars cs [] else baseNameChars cs (c :: acc)

/-- The base name of a relative path — the `fname` component `os.walk`
yields for that file (the part after the last `/`). -/
def baseName (rel : String) : String :=
  ⟨baseNameChars rel.data []⟩

/-- Destination path of one compressed file in per-file mode (line 183):
`rel + ".zst"` when `preserve_structure`, else `fname + ".zst"`. -/
def destPath (cfg : Config) (rel : String) : String :=
  if cfg.preserve_structure then rel ++ ".zst" else baseName rel ++ ".zst"

/-- Python `fname.endswith(".zst")` (character-wise). -/
def endsWithZst (s : String) : Bool :=
  ".zst".data.isSuffixOf s.data

/-- Python `rel[:-4]` — drop the last four characters (strip `".zst"`). -/
def stripZstExt (s : String) : String :=
  ⟨s.data.take (s.data.length - 4)⟩

/-! ## Commit Writer (`store`, lines 135-218)

Parameters beyond the state: the configuration, the commit message and
tags, the recursive walk of the input directory as a list of
(path relative to `logs_dir`, bytes) in enumeration order (`none` when the
input directory does not exist), the relative input-directory path
recorded in the index, the `datetime.now()` string, and the `-rm` flag.
On success the result carries the new state and the source directory's
contents afterwards (cleared when `remove` is set, line 207-216). -/

/-- The working file list of `store` (lines 152-159): every walked file
whose relative path matches no exclude pattern. -/
def gatherFiles (ext : Ext) (cfg : Config) (src : List (String × Bytes)) :
    List (String × Bytes) :=
  src.filter (fun f => !(cfg.exclude.any (fun pat => ext.fnmatch f.1 pat)))

/-- The per-file-mode compression loop (lines 181-187) run over `files`
on top of the existing directory contents `dir0`: each file is compressed
to `destPath` inside the commit directory (`open(dst, "wb")` overwrites). -/
def writeFiles (ext : Ext) (cfg : Config) (dir0 : List (String × Bytes))
    (files : List (String × Bytes)) : List (String × Bytes) :=
  files.foldl (fun d f => upsert d (destPath cfg f.1) (ext.C cfg.zstd_level f.2)) dir0

/-- `total_size` accumulated by the per-file loop (line 186): the size of
each file as just written (overwritten destinations are still counted). -/
def totalSize (ext : Ext) (cfg : Config) (files : List (String × Bytes)) : Nat :=
  files.foldl (fun n f => n + (ext.C cfg.zstd_level f.2).length) 0

/-- The commit record `store` writes into the index (lines 193-201). -/
def mkEntry (msg now : String) (total_size count : Nat)
    (commit_hash srcRel : String) (tags : List (String × String)) : CommitEntry :=
  { msg := msg, date := now, size_bytes := total_size, files := count,
    path := ".rack/store/" ++ commit_hash, input_dir := srcRel, tags := tags }

/-- `store(msg, tags, override_path, remove)` (lines 135-218).

Notes kept faithful to the source:
* the duplicate-fingerprint check (lines 146-147) happens before any disk
  write;
* `os.makedirs(commit_dir, exist_ok=True)` (line 150) creates the commit
  directory directly under its final fingerprint-keyed name, silently
  reusing it (with its contents) if it already exists — there is no
  staging location and no existence check;
* in folder mode the intermediate `logs.tar` is written, compressed to
  `logs.tar.zst` and removed (lines 164-177), so only `logs.tar.zst`
  remains;
* the index entry is written only after all compression succeeded
  (lines 191-202);
* with `remove` set the source directory's contents are cleared after
  success (lines 207-216). -/
def store (ext : Ext) (cfg : Config) (st : RackState) (msg : String)
    (tags : List (String × String)) (src? : Option (List (String × Bytes)))
    (srcRel now : String) (remove : Bool) :
    Except (String × RackState) (RackState × List (String × Bytes)) :=
  match src? with
  | none => .error ("Error: input directory not found", st)
  | some src =>
    let commit_hash := hash_commit ext.H msg tags
    if (alookup st.index commit_hash).isSome then
      .error ("Error: duplicate commit detected with hash " ++ commit_hash, st)
    else
      let dir0 := (alookup st.storeDirs commit_hash).getD []
      let files := gatherFiles ext cfg src
      let count := files.length
      if cfg.compress_mode = "folder" then
        let arc := files.map
          (fun f => (if cfg.preserve_structure then f.1 else baseName f.1, f.2))
        let blob := ext.C cfg.zstd_level (ext.pack arc)
        let dir1 := upsert dir0 "logs.tar.zst" blob
        let entry := mkEntry msg now blob.length count commit_hash srcRel tags
        .ok (⟨upsert st.index commit_hash entry,
              upsert st.storeDirs commit_hash dir1⟩,
             if remove then [] else src)
      else if cfg.compress_mode = "files" then
        let dir1 := writeFiles ext cfg dir0 files
        let entry := mkEntry msg now (totalSize ext cfg files) count commit_hash srcRel tags
        .ok (⟨upsert st.index commit_hash entry,
              upsert st.storeDirs commit_hash dir1⟩,
             if remove then [] else src)
      else
        .error ("Error: invalid compress_mode in config",
                ⟨st.index, upsert st.storeDirs commit_hash dir0⟩)

/-- The on-disk state and source contents after a files-mode `store` is
interrupted (cancellation / unhandled failure) at the loop boundary after
`k` of the gathered files have been compressed. `store` has no
`try`/`finally` and installs no cleanup handler, so the aborted run simply
leaves what the loop wrote so far: the commit directory created at
line 150 holding the first `k` compressed files. The index file is only
written at line 202 on full success, so it is untouched, as is the source
directory (it is only cleared after success, line 207). -/
def store_interrupted (ext : Ext) (cfg : Config) (st : RackState)
    (msg : String) (tags : List (String × String))
    (src : List (String × Bytes)) (k : Nat) :
    RackState × List (String × Bytes) :=
  let commit_hash := hash_commit ext.H msg tags
  if (alookup st.index commit_hash).isSome then
    (st, src)
  else
    let dir0 := (alookup st.storeDirs commit_hash).getD []
    let files := (gatherFiles ext cfg src).take k
    (⟨st.index, upsert st.storeDirs commit_hash (writeFiles ext cfg dir0 files)⟩,
     src)

/-! ## Commit Reader (`dump`, lines 220-291) -/

/-- `dump(commit_hash, outdir, remove)` (lines 220-291). `outdir0` is the
contents of the resolved output directory before restoration; on success
the result carries the state after the optional purge, the output
directory's contents, and `files_extracted`. Layout detection (line 243)
probes the commit directory for `logs.tar.zst`; otherwise every `.zst`
member is decompressed to its path with the suffix stripped
(lines 264-280). -/
def dump (ext : Ext) (st : RackState) (commit_hash : String)
    (outdir0 : List (String × Bytes)) (remove : Bool) :
    Except (String × RackState)
      (RackState × List (String × Bytes) × List String) :=
  match alookup st.index commit_hash with
  | none => .error ("Error: commit " ++ commit_hash ++ " not found", st)
  | some _ =>
    match alookup st.storeDirs commit_hash with
    | none => .error ("Error: commit data missing for " ++ commit_hash, st)
    | some dir =>
      let st1 : RackState :=
        if remove then
          ⟨eraseKey st.index commit_hash, eraseKey st.storeDirs commit_hash⟩
        else st
      match alookup dir "logs.tar.zst" with
      | some blob =>
        let members := ext.unpack (ext.D blob)
        .ok (st1, members.foldl (fun o m => upsert o m.1 m.2) outdir0,
             members.map (·.1))
      | none =>
        let zsts := dir.filter (fun e => endsWithZst e.1)
        .ok (st1,
             zsts.foldl (fun o e => upsert o (stripZstExt e.1) (ext.D e.2)) outdir0,
             zsts.map (fun e => stripZstExt e.1))

/-! ## Re-identification Manager (`add_tags`, lines 356-395) -/

/-- `add_tags(commit_hash, new_tags)` (lines 356-395): merge the new tags
over the existing ones, re-derive the fingerprint; identical fingerprint
updates tags in place; a fingerprint already in the index (line 367) or a
target directory already on disk (line 380) aborts with no mutation; else
the directory is renamed and the index entry re-keyed (insert before
delete, lines 388-394). -/
def add_tags (ext : Ext) (st : RackState) (commit_hash : String)
    (new_tags : List (String × String)) : Except (String × RackState) RackState :=
  match alookup st.index commit_hash with
  | none => .error ("Error: store " ++ commit_hash ++ " not found.", st)
  | some old =>
    let merged := dictMerge old.tags new_tags
    let new_hash := hash_commit ext.H old.msg merged
    if ¬ new_hash = commit_hash ∧ (alookup st.index new_hash).isSome then
      .error ("Error: Adding these tags would create duplicate store ("
                ++ new_hash ++ "). Aborting.", st)
    else if new_hash = commit_hash then
      .ok ⟨upsert st.index commit_hash { old with tags := dictMerge old.tags new_tags },
           st.storeDirs⟩
    else if (alookup st.storeDirs new_hash).isSome then
      .error ("Error: target store directory " ++ new_hash
                ++ " already exists. Aborting.", st)
    else
      match alookup st.storeDirs commit_hash with
      | none => .error ("Error moving store dir", st)
      | some dir =>
        let newEntry : CommitEntry :=
          { old with tags := merged, path := ".rack/store/" ++ new_hash }
        .ok ⟨eraseKey (upsert st.index new_hash newEntry) commit_hash,
             upsert (eraseKey st.storeDirs commit_hash) new_hash dir⟩

/-! ## Concrete fixtures

Closed instantiations used to evaluate the operations on explicit inputs:
an `Ext` whose digest is the identity on the key string and whose codec is
the identity on bytes (any such instantiation is admissible, the program
never inspects their outputs structurally), configurations matching
`DEFAULT_CONFIG` variants, and small source trees. -/

/-- Identity instantiation of the external primitives. -/
def ext0 : Ext := ⟨id, fun _ b => b, id, fun _ => [], fun _ => [], fun _ _ => false⟩

/-- `ext0` with a matcher that recognizes the relative path `"x.tmp"`. -/
def extM : Ext := ⟨id, fun _ b => b, id, fun _ => [], fun _ => [],
  fun rel _ => rel == "x.tmp"⟩

/-- Per-file mode, structure preserved, no exclude patterns. -/
def cfg0 : Config := ⟨"logs-debug", [], true, "files", 17⟩

/-- Per-file mode with structure flattened to base names. -/
def cfgFlat : Config := ⟨"logs-debug", [], false, "files", 17⟩

/-- Per-file mode with one exclude pattern, as in `DEFAULT_CONFIG`. -/
def cfgX : Config := ⟨"logs-debug", ["*.tmp"], true, "files", 17⟩

/-- The UTF-8 bytes of `"hello"`. -/
def helloBytes : Bytes := [104, 101, 108, 108, 111]

/-- The UTF-8 bytes of `"world"`. -/
def worldBytes : Bytes := [119, 111, 114, 108, 100]

/-- The spec's round-trip example source directory. -/
def src0 : List (String × Bytes) := [("a.txt", helloBytes), ("sub/b.txt", worldBytes)]

/-- A state whose store directory already holds a directory named by the
fingerprint `"m|"` (which `ext0` derives for message `"m"`, no tags),
while the index does not know that fingerprint. -/
def stDir : RackState := ⟨[], [("m|", [("old.txt", [0])])]⟩

/-- A state whose index already holds fingerprint `"m|"`. -/
def stDup : RackState := ⟨[("m|", mkEntry "m" "d0" 0 0 "m|" "logs-debug" [])], []⟩

/-- A state holding a commit under `"h1"` (message `"m"`, no tags) and an
unrelated commit under `"m|a=1"` — the fingerprint `ext0` derives for
message `"m"` with tags `{a: 1}`. -/
def stTwo : RackState :=
  ⟨[("h1", mkEntry "m" "d" 0 0 "h1" "logs-debug" []),
    ("m|a=1", mkEntry "n" "d" 0 0 "m|a=1" "logs-debug" [])], []⟩

/-- A state holding the commit `ext0` derives for message `"m"` and tags
`{k: "v|x=y"}` — fingerprint `"m|k=v|x=y"`. -/
def stC10 : RackState :=
  ⟨[("m|k=v|x=y", mkEntry "m" "d" 0 0 "m|k=v|x=y" "logs-debug" [("k", "v|x=y")])], []⟩

/-! ## Association-list lemmas -/

theorem alookup_append {α : Type} (l₁ l₂ : List (String × α)) (k : String) :
    alookup (l₁ ++ l₂) k = (alookup l₁ k).orElse (fun _ => alookup l₂ k) := by
  induction l₁ with
  | nil => rfl
  | cons e t ih =>
    by_cases h : e.1 = k
    · simp [alookup, h]
    · simpa [alookup, h] using ih

theorem alookup_eq_none {α : Type} (l : List (String × α)) (k : String)
    (h : ∀ e ∈ l, ¬ e.1 = k) : alookup l k = none := by
  induction l with
  | nil => rfl
  | cons e t ih =>
    simp only [alookup, if_neg (h e (List.mem_cons_self e t))]
    exact ih fun e' he' => h e' (List.mem_cons_of_mem e he')

theorem upsert_of_none {α : Type} :
    ∀ (l : List (String × α)) (k : String) (v : α),
      alookup l k = none → upsert l k v = l ++ [(k, v)] := by
  intro l
  induction l with
  | nil => intro k v _; rfl
  | cons e t ih =>
    intro k v h
    by_cases he : e.1 = k
    · rw [alookup, if_pos he] at h
      exact absurd h (by simp)
    · rw [alookup, if_neg he] at h
      show (if e.1 = k then (k, v) :: t else e :: upsert t k v) = _
      rw [if_neg he, ih k v h]
      rfl

theorem alookup_upsert_self {α : Type} :
    ∀ (l : List (String × α)) (k : String) (v : α),
      alookup (upsert l k v) k = some v := by
  intro l
  induction l with
  | nil => intro k v; simp [upsert, alookup]
  | cons e t ih =>
    intro k v
    show alookup (if e.1 = k then (k, v) :: t else e :: upsert t k v) k = some v
    by_cases he : e.1 = k
    · rw [if_pos he]
      simp [alookup]
    · rw [if_neg he, alookup, if_neg he]
      exact ih k v

theorem alookup_upsert_ne {α : Type} :
    ∀ (l : List (String × α)) (k k' : String) (v : α), ¬ k = k' →
      alookup (upsert l k v) k' = alookup l k' := by
  intro l
  induction l with
  | nil =>
    intro k k' v h
    simp [upsert, alookup, h]
  | cons e t ih =>
    intro k k' v h
    show alookup (if e.1 = k then (k, v) :: t else e :: upsert t k v) k' = _
    by_cases he : e.1 = k
    · rw [if_pos he, alookup, if_neg h, alookup, if_neg (he ▸ h)]
    · rw [if_neg he, alookup, alookup]
      by_cases he' : e.1 = k'
      · rw [if_pos he', if_pos he']
      · rw [if_neg he', if_neg he']
        exact ih k k' v h

theorem mem_upsert {α : Type} :
    ∀ (l : List (String × α)) (k : String) (v : α),
      ∀ e ∈ upsert l k v, e ∈ l ∨ e = (k, v) := by
  intro l
  induction l with
  | nil => intro k v e he; exact Or.inr (List.mem_singleton.mp he)
  | cons e₀ t ih =>
    intro k v e he
    rw [show upsert (e₀ :: t) k v
          = if e₀.1 = k then (k, v) :: t else e₀ :: upsert t k v from rfl] at he
    by_cases h : e₀.1 = k
    · rw [if_pos h] at he
      rcases List.mem_cons.mp he with rfl | ht
      · exact Or.inr rfl
      · exact Or.inl (List.mem_cons_of_mem e₀ ht)
    · rw [if_neg h] at he
      rcases List.mem_cons.mp he with rfl | ht
      · exact Or.inl (List.mem_cons_self e t)
      · rcases ih k v e ht with h' | h'
        · exact Or.inl (List.mem_cons_of_mem e₀ h')
        · exact Or.inr h'

/-- Every binding of a fold of writes comes from the accumulator or from
one of the written (key, value) pairs. -/
theorem mem_foldl_upsert (g : String × Bytes → String)
    (hB : String × Bytes → Bytes) :
    ∀ (files : List (String × Bytes)) (acc : List (String × Bytes)),
      ∀ e ∈ files.foldl (fun d f => upsert d (g f) (hB f)) acc,
        e ∈ acc ∨ ∃ f ∈ files, e = (g f, hB f) := by
  intro files
  induction files with
  | nil => intro acc e he; exact Or.inl he
  | cons f fs ih =>
    intro acc e he
    rcases ih (upsert acc (g f) (hB f)) e he with hacc | ⟨f', hf', rfl⟩
    · rcases mem_upsert acc (g f) (hB f) e hacc with h | h
      · exact Or.inl h
      · exact Or.inr ⟨f, List.mem_cons_self f fs, h⟩
    · exact Or.inr ⟨f', List.mem_cons_of_mem f hf', rfl⟩

/-- A fold of writes with pairwise-distinct fresh keys appends the written
pairs in order. -/
theorem foldl_upsert_append (g : String × Bytes → String)
    (hB : String × Bytes → Bytes) :
    ∀ (files : List (String × Bytes)) (acc : List (String × Bytes)),
      (files.map g).Nodup →
      (∀ f ∈ files, alookup acc (g f) = none) →
      files.foldl (fun d f => upsert d (g f) (hB f)) acc
        = acc ++ files.map (fun f => (g f, hB f)) := by
  intro files
  induction files with
  | nil => intro acc _ _; simp
  | cons f fs ih =>
    intro acc hnd hacc
    have hstep : upsert acc (g f) (hB f) = acc ++ [(g f, hB f)] :=
      upsert_of_none acc (g f) (hB f) (hacc f (List.mem_cons_self f fs))
    have hnd' : (fs.map g).Nodup := (List.nodup_cons.mp hnd).2
    have hfresh : ∀ f' ∈ fs, alookup (acc ++ [(g f, hB f)]) (g f') = none := by
      intro f' hf'
      rw [alookup_append, hacc f' (List.mem_cons_of_mem f hf')]
      have hne : ¬ g f = g f' := by
        intro hEq
        exact (List.nodup_cons.mp hnd).1 (hEq ▸ List.mem_map_of_mem g hf')
      simp [alookup, hne]
    calc (f :: fs).foldl (fun d f => upsert d (g f) (hB f)) acc
        = fs.foldl (fun d f => upsert d (g f) (hB f)) (acc ++ [(g f, hB f)]) := by
          rw [List.foldl_cons, hstep]
      _ = acc ++ [(g f, hB f)] ++ fs.map (fun f => (g f, hB f)) :=
          ih (acc ++ [(g f, hB f)]) hnd' hfresh
      _ = acc ++ (f :: fs).map (fun f => (g f, hB f)) := by
          simp

/-! ## Path-string lemmas -/

theorem zst_append_inj (r₁ r₂ : String) (h : r₁ ++ ".zst" = r₂ ++ ".zst") :
    r₁ = r₂ := by
  apply String.ext
  have hd : r₁.data ++ ".zst".data = r₂.data ++ ".zst".data := congrArg String.data h
  exact List.append_cancel_right hd

theorem stripZstExt_append (r : String) : stripZstExt (r ++ ".zst") = r := by
  apply String.ext
  show ((r ++ ".zst").data.take ((r ++ ".zst").data.length - 4)) = r.data
  have hd : (r ++ ".zst").data = r.data ++ ".zst".data := rfl
  rw [hd, List.length_append]
  show (r.data ++ ".zst".data).take (r.data.length + 4 - 4) = r.data
  rw [Nat.add_sub_cancel]
  exact List.take_left r.data _

theorem endsWithZst_append (r : String) : endsWithZst (r ++ ".zst") = true := by
  unfold endsWithZst
  rw [List.isSuffixOf_iff_suffix]
  exact ⟨r.data, rfl⟩

/-! ## Sorting / fingerprint lemmas -/

/-- Permuted tag mappings sort to the same list: the sorted permutation is
unique for a total, transitive, antisymmetric order. -/
theorem sortTags_eq_of_perm (t₁ t₂ : List (String × String)) (h : t₁.Perm t₂) :
    sortTags t₁ = sortTags t₂ :=
  List.eq_of_perm_of_sorted
    ((List.perm_insertionSort tagLe t₁).trans
      (h.trans (List.perm_insertionSort tagLe t₂).symm))
    (List.sorted_insertionSort tagLe t₁)
    (List.sorted_insertionSort tagLe t₂)

/-! ## `store` characterization in per-file mode -/

theorem store_files_spec (ext : Ext) (cfg : Config) (st : RackState)
    (msg srcRel now : String) (tags : List (String × String))
    (src : List (String × Bytes)) (remove : Bool)
    (hmode : cfg.compress_mode = "files")
    (hidx : alookup st.index (hash_commit ext.H msg tags) = none) :
    store ext cfg st msg tags (some src) srcRel now remove
      = .ok (⟨upsert st.index (hash_commit ext.H msg tags)
                (mkEntry msg now (totalSize ext cfg (gatherFiles ext cfg src))
                  (gatherFiles ext cfg src).length
                  (hash_commit ext.H msg tags) srcRel tags),
              upsert st.storeDirs (hash_commit ext.H msg tags)
                (writeFiles ext cfg
                  ((alookup st.storeDirs (hash_commit ext.H msg tags)).getD [])
                  (gatherFiles ext cfg src))⟩,
             if remove then [] else src) := by
  have hne : ¬ cfg.compress_mode = "folder" := by rw [hmode]; decide
  simp only [store, hidx, hmode, Option.isSome_none, Bool.false_eq_true,
    if_false, if_neg hne, if_true, if_pos rfl]
  rw [if_neg (by decide : ¬ ("files" : String) = "folder")]

/-! ## Claim theorems -/

/-- **C2.** For every existing commit with fingerprint F, a `store` call
whose `(label, tags)` derive the same fingerprint F fails with the
Duplicate Commit error and returns with the state exactly as it was: the
index is unchanged and no storage directory is created (the check at
lines 146-147 precedes every disk write). -/
theorem store_duplicate_rejected (ext : Ext) (cfg : Config) (st : RackState)
    (msg srcRel now : String) (tags : List (String × String))
    (src : List (String × Bytes)) (remove : Bool) (e : CommitEntry)
    (h : alookup st.index (hash_commit ext.H msg tags) = some e) :
    store ext cfg st msg tags (some src) srcRel now remove
      = .error ("Error: duplicate commit detected with hash "
                  ++ hash_commit ext.H msg tags, st) := by
  simp only [store, h, Option.isSome_some, if_true, if_pos rfl]

theorem store_duplicate_rejected_witness :
    alookup stDup.index (hash_commit ext0.H "m" []) = some (mkEntry "m" "d0" 0 0 "m|" "logs-debug" []) ∧
    store ext0 cfg0 stDup "m" [] (some src0) "logs-debug" "d" false
      = .error ("Error: duplicate commit detected with hash "
                  ++ hash_commit ext0.H "m" [], stDup) :=
  ⟨rfl, store_duplicate_rejected ext0 cfg0 stDup "m" "logs-debug" "d" [] src0 false
    (mkEntry "m" "d0" 0 0 "m|" "logs-debug" []) rfl⟩

/-- **C5.** Fingerprint determinism: deriving the fingerprint twice from
the same `(label, tags)` yields identical results, and the result is
independent of the insertion order of the tag mapping — `hash_commit`
sorts the `(key, value)` pairs before concatenating (line 108). -/
theorem hash_commit_deterministic (H : String → String) (msg : String)
    (t₁ t₂ : List (String × String)) (hperm : t₁.Perm t₂) :
    hash_commit H msg t₁ = hash_commit H msg t₁ ∧
    hash_commit H msg t₁ = hash_commit H msg t₂ := by
  refine ⟨rfl, ?_⟩
  unfold hash_commit commitKey
  rw [sortTags_eq_of_perm t₁ t₂ hperm]

theorem hash_commit_deterministic_witness :
    List.Perm [("a", "1"), ("b", "2")] [("b", "2"), ("a", "1")] ∧
    hash_commit id "m" [("a", "1"), ("b", "2")]
      = hash_commit id "m" [("b", "2"), ("a", "1")] :=
  ⟨List.Perm.swap ("b", "2") ("a", "1") [],
   (hash_commit_deterministic id "m" [("a", "1"), ("b", "2")] [("b", "2"), ("a", "1")]
      (List.Perm.swap ("b", "2") ("a", "1") [])).2⟩

/-- **C7.** Retagging a commit F₁ with tags whose merge derives a
fingerprint F₂ already present in the index fails with the
duplicate-store error (line 367-368) and returns with the state exactly
as it was: both index entries and both storage directories are
unchanged. -/
theorem add_tags_collision_safe (ext : Ext) (st : RackState) (F₁ : String)
    (new_tags : List (String × String)) (e₁ : CommitEntry)
    (h₁ : alookup st.index F₁ = some e₁)
    (hne : ¬ hash_commit ext.H e₁.msg (dictMerge e₁.tags new_tags) = F₁)
    (hcol : (alookup st.index
        (hash_commit ext.H e₁.msg (dictMerge e₁.tags new_tags))).isSome = true) :
    add_tags ext st F₁ new_tags
      = .error ("Error: Adding these tags would create duplicate store ("
                  ++ hash_commit ext.H e₁.msg (dictMerge e₁.tags new_tags)
                  ++ "). Aborting.", st) := by
  simp only [add_tags, h₁, if_pos (And.intro hne hcol)]

theorem add_tags_collision_safe_witness :
    alookup stTwo.index "h1" = some (mkEntry "m" "d" 0 0 "h1" "logs-debug" []) ∧
    add_tags ext0 stTwo "h1" [("a", "1")]
      = .error ("Error: Adding these tags would create duplicate store ("
                  ++ hash_commit ext0.H "m" (dictMerge [] [("a", "1")])
                  ++ "). Aborting.", stTwo) :=
  ⟨rfl, add_tags_collision_safe ext0 stTwo "h1" [("a", "1")]
    (mkEntry "m" "d" 0 0 "h1" "logs-debug" []) rfl (by decide) (by decide)⟩

/-- **C3 counterexample.** The claim that `store` verifies that no
staging/final storage location exists and fails with a Storage Conflict
otherwise is false: here the final storage directory for the derived
fingerprint `"m|"` already exists on disk (holding `old.txt`), yet
`store` succeeds — `os.makedirs(..., exist_ok=True)` (line 150) reuses
the directory and writes into it. -/
theorem store_no_conflict_check_cex :
    store ext0 cfg0 stDir "m" [] (some [("f.txt", [1])]) "logs-debug" "d" false
      = .ok (⟨[("m|", mkEntry "m" "d" 1 1 "m|" "logs-debug" [])],
              [("m|", [("old.txt", [0]), ("f.txt.zst", [1])])]⟩,
             [("f.txt", [1])]) := rfl

/-- **C3 amended.** `store` uses no staging location and performs no
existence check at all: whenever the fingerprint is not in the index (and
the mode is per-file), it succeeds, writing its compressed files directly
into the final fingerprint-keyed directory on top of whatever that
directory already contains. -/
theorem store_writes_final_location_directly (ext : Ext) (cfg : Config)
    (st : RackState) (msg srcRel now : String) (tags : List (String × String))
    (src : List (String × Bytes)) (remove : Bool)
    (hmode : cfg.compress_mode = "files")
    (hidx : alookup st.index (hash_commit ext.H msg tags) = none) :
    ∃ st' src',
      store ext cfg st msg tags (some src) srcRel now remove = .ok (st', src') ∧
      alookup st'.storeDirs (hash_commit ext.H msg tags)
        = some (writeFiles ext cfg
            ((alookup st.storeDirs (hash_commit ext.H msg tags)).getD [])
            (gatherFiles ext cfg src)) :=
  ⟨_, _, store_files_spec ext cfg st msg srcRel now tags src remove hmode hidx,
   alookup_upsert_self _ _ _⟩

theorem store_writes_final_location_directly_witness :
    cfg0.compress_mode = "files" ∧
    alookup stDir.index (hash_commit ext0.H "m" []) = none ∧
    ∃ st' src',
      store ext0 cfg0 stDir "m" [] (some [("f.txt", [1])]) "logs-debug" "d" false
        = .ok (st', src') ∧
      alookup st'.storeDirs (hash_commit ext0.H "m" [])
        = some (writeFiles ext0 cfg0
            ((alookup stDir.storeDirs (hash_commit ext0.H "m" [])).getD [])
            (gatherFiles ext0 cfg0 [("f.txt", [1])])) :=
  ⟨rfl, rfl, store_writes_final_location_directly ext0 cfg0 stDir "m" "logs-debug"
    "d" [] [("f.txt", [1])] false rfl rfl⟩

/-- **C4 counterexample.** The claim that an interrupted `store` leaves
zero residual staging/storage directories on disk is false: interrupting
after 1 of 2 files leaves the commit directory for the fingerprint on
disk, holding the one already-compressed file — `store` has no cleanup
handler. -/
theorem store_interrupted_residual_cex :
    alookup (store_interrupted ext0 cfg0 ⟨[], []⟩ "m" []
        [("a.txt", [1]), ("b.txt", [2])] 1).1.storeDirs
        (hash_commit ext0.H "m" [])
      = some [("a.txt.zst", [1])] := rfl

/-- **C4 amended.** Interrupting a `store` after k of the gathered files
have been processed leaves zero index entries for that fingerprint
(the index is only written on full success, line 202) and leaves the
source directory untouched, but leaves a residual storage directory on
disk containing the k files compressed so far. -/
theorem store_interrupted_spec (ext : Ext) (cfg : Config) (st : RackState)
    (msg : String) (tags : List (String × String))
    (src : List (String × Bytes)) (k : Nat)
    (hidx : alookup st.index (hash_commit ext.H msg tags) = none) :
    (store_interrupted ext cfg st msg tags src k).1.index = st.index ∧
    (store_interrupted ext cfg st msg tags src k).2 = src ∧
    alookup (store_interrupted ext cfg st msg tags src k).1.storeDirs
        (hash_commit ext.H msg tags)
      = some (writeFiles ext cfg
          ((alookup st.storeDirs (hash_commit ext.H msg tags)).getD [])
          ((gatherFiles ext cfg src).take k)) := by
  unfold store_interrupted
  simp only [hidx, Option.isSome_none, Bool.false_eq_true, if_false]
  exact ⟨trivial, trivial, alookup_upsert_self _ _ _⟩

theorem store_interrupted_spec_witness :
    alookup (⟨[], []⟩ : RackState).index (hash_commit ext0.H "m" []) = none ∧
    ((store_interrupted ext0 cfg0 ⟨[], []⟩ "m" []
        [("a.txt", [1]), ("b.txt", [2])] 1).1.index = ([] : List (String × CommitEntry)) ∧
     (store_interrupted ext0 cfg0 ⟨[], []⟩ "m" []
        [("a.txt", [1]), ("b.txt", [2])] 1).2 = [("a.txt", [1]), ("b.txt", [2])] ∧
     alookup (store_interrupted ext0 cfg0 ⟨[], []⟩ "m" []
        [("a.txt", [1]), ("b.txt", [2])] 1).1.storeDirs (hash_commit ext0.H "m" [])
       = some (writeFiles ext0 cfg0
           ((alookup (⟨[], []⟩ : RackState).storeDirs (hash_commit ext0.H "m" [])).getD [])
           ((gatherFiles ext0 cfg0 [("a.txt", [1]), ("b.txt", [2])]).take 1))) :=
  ⟨rfl, store_interrupted_spec ext0 cfg0 ⟨[], []⟩ "m" []
    [("a.txt", [1]), ("b.txt", [2])] 1 rfl⟩

/-- **C9.** With `compress_mode = "files"` and `preserve_structure =
false`, every destination path is derived from the base name alone
(line 183), so two included files with equal base names in different
subdirectories collide: on the two-file source below the later file
overwrites the earlier's compressed output, and the recorded
`file_count` (2) exceeds the number of files actually stored (1). -/
theorem flatten_basename_collision :
    (∀ rel : String, destPath cfgFlat rel = baseName rel ++ ".zst") ∧
    store ext0 cfgFlat ⟨[], []⟩ "m" []
        (some [("sub1/x.txt", [1]), ("sub2/x.txt", [2])]) "logs-debug" "d" false
      = .ok (⟨[("m|", mkEntry "m" "d" 2 2 "m|" "logs-debug" [])],
              [("m|", [("x.txt.zst", [2])])]⟩,
             [("sub1/x.txt", [1]), ("sub2/x.txt", [2])]) ∧
    (mkEntry "m" "d" 2 2 "m|" "logs-debug" []).files = 2 ∧
    ([("x.txt.zst", ([2] : Bytes))]).length = 1 :=
  ⟨fun _ => rfl, rfl, rfl, rfl⟩

/-- **C10.** The fingerprint key concatenates label and `key=value` pairs
with unescaped `|` and `=` (line 108), so the distinct tag mappings
`{k: "v|x=y"}` and `{k: "v", x: "y"}` produce the same key and hence the
same fingerprint under every digest; a `store` of the second against a
state holding the first is rejected as a duplicate commit. -/
theorem hash_delimiter_collision :
    (¬ ([("k", "v|x=y")] : List (String × String)) = [("k", "v"), ("x", "y")]) ∧
    (∀ H : String → String, ∀ msg : String,
        hash_commit H msg [("k", "v|x=y")]
          = hash_commit H msg [("k", "v"), ("x", "y")]) ∧
    store ext0 cfg0 stC10 "m" [("k", "v"), ("x", "y")] (some src0)
        "logs-debug" "d" false
      = .error ("Error: duplicate commit detected with hash "
                  ++ hash_commit ext0.H "m" [("k", "v"), ("x", "y")], stC10) := by
  refine ⟨by decide, fun H msg => congrArg H ?_, rfl⟩
  show msg ++ "|" ++ _ = msg ++ "|" ++ _
  rfl

/-- **C1.** Round-trip: storing a source tree containing `a.txt` (bytes of
`"hello"`) and `sub/b.txt` (bytes of `"world"`) in per-file mode with
`preserve_structure = true`, then dumping the resulting fingerprint into
an empty directory, reproduces the whole tree byte-identically — in
particular `a.txt` and `sub/b.txt` at their original relative paths. The
codec is assumed to be a left-inverse pair, as the `zstandard` library
guarantees. (A source file literally named `logs.tar` is excluded by
hypothesis: `dump` would misdetect its compressed artifact as the
folder-mode archive, line 243.) -/
theorem store_dump_roundtrip (ext : Ext) (cfg : Config) (st : RackState)
    (msg srcRel now : String) (tags : List (String × String))
    (src : List (String × Bytes))
    (hinv : ∀ b, ext.D (ext.C cfg.zstd_level b) = b)
    (hmode : cfg.compress_mode = "files")
    (hpres : cfg.preserve_structure = true)
    (hexcl : ∀ f ∈ src, cfg.exclude.any (fun p => ext.fnmatch f.1 p) = false)
    (hnodup : (src.map Prod.fst).Nodup)
    (hnotar : ¬ "logs.tar" ∈ src.map Prod.fst)
    (hidx : alookup st.index (hash_commit ext.H msg tags) = none)
    (hdir : alookup st.storeDirs (hash_commit ext.H msg tags) = none)
    (ha : ("a.txt", helloBytes) ∈ src)
    (hb : ("sub/b.txt", worldBytes) ∈ src) :
    ∃ (st' : RackState) (names : List String),
      store ext cfg st msg tags (some src) srcRel now false = .ok (st', src) ∧
      dump ext st' (hash_commit ext.H msg tags) [] false = .ok (st', src, names) ∧
      ("a.txt", helloBytes) ∈ src ∧ ("sub/b.txt", worldBytes) ∈ src := by
  have hg : gatherFiles ext cfg src = src :=
    List.filter_eq_self.mpr (fun f hf => by rw [hexcl f hf]; rfl)
  have hdp : ∀ r, destPath cfg r = r ++ ".zst" := fun r => by
    simp [destPath, hpres]
  have hinj : Function.Injective (fun s : String => s ++ ".zst") :=
    fun a b h => zst_append_inj a b h
  have hnd : (src.map (fun f : String × Bytes => f.1 ++ ".zst")).Nodup := by
    have h1 : src.map (fun f : String × Bytes => f.1 ++ ".zst")
        = (src.map Prod.fst).map (fun s => s ++ ".zst") := by
      rw [List.map_map]
      rfl
    rw [h1]
    exact hnodup.map hinj
  have hw : writeFiles ext cfg [] src
      = src.map (fun f => (f.1 ++ ".zst", ext.C cfg.zstd_level f.2)) := by
    have hfun : (fun (d : List (String × Bytes)) (f : String × Bytes) =>
        upsert d (destPath cfg f.1) (ext.C cfg.zstd_level f.2))
        = fun d f => upsert d (f.1 ++ ".zst") (ext.C cfg.zstd_level f.2) := by
      funext d f
      rw [hdp]
    calc writeFiles ext cfg [] src
        = src.foldl (fun d f => upsert d (f.1 ++ ".zst")
            (ext.C cfg.zstd_level f.2)) [] := by
          unfold writeFiles
          rw [hfun]
      _ = [] ++ src.map (fun f => (f.1 ++ ".zst", ext.C cfg.zstd_level f.2)) :=
          foldl_upsert_append (fun f => f.1 ++ ".zst")
            (fun f => ext.C cfg.zstd_level f.2) src [] hnd (fun _ _ => rfl)
      _ = src.map (fun f => (f.1 ++ ".zst", ext.C cfg.zstd_level f.2)) :=
          List.nil_append _
  have hspec := store_files_spec ext cfg st msg srcRel now tags src false hmode hidx
  rw [hdir, hg] at hspec
  simp only [Option.getD_none] at hspec
  rw [hw] at hspec
  simp only [Bool.false_eq_true, if_false] at hspec
  refine ⟨_, (src.map (fun f => (f.1 ++ ".zst", ext.C cfg.zstd_level f.2))).map
      (fun e => stripZstExt e.1), hspec, ?_, ha, hb⟩
  have hidx' : alookup
      (upsert st.index (hash_commit ext.H msg tags)
        (mkEntry msg now (totalSize ext cfg src) src.length
          (hash_commit ext.H msg tags) srcRel tags))
      (hash_commit ext.H msg tags)
      = some (mkEntry msg now (totalSize ext cfg src) src.length
          (hash_commit ext.H msg tags) srcRel tags) :=
    alookup_upsert_self _ _ _
  have hdirs' : alookup
      (upsert st.storeDirs (hash_commit ext.H msg tags)
        (src.map (fun f => (f.1 ++ ".zst", ext.C cfg.zstd_level f.2))))
      (hash_commit ext.H msg tags)
      = some (src.map (fun f => (f.1 ++ ".zst", ext.C cfg.zstd_level f.2))) :=
    alookup_upsert_self _ _ _
  have htar : alookup (src.map (fun f => (f.1 ++ ".zst", ext.C cfg.zstd_level f.2)))
      "logs.tar.zst" = none := by
    apply alookup_eq_none
    intro e he hEq
    rcases List.mem_map.mp he with ⟨f, hf, rfl⟩
    have h1 : f.1 ++ ".zst" = "logs.tar" ++ ".zst" := hEq
    exact hnotar (zst_append_inj f.1 "logs.tar" h1 ▸ List.mem_map_of_mem Prod.fst hf)
  have hfil : (src.map (fun f => (f.1 ++ ".zst", ext.C cfg.zstd_level f.2))).filter
      (fun e => endsWithZst e.1)
      = src.map (fun f => (f.1 ++ ".zst", ext.C cfg.zstd_level f.2)) := by
    apply List.filter_eq_self.mpr
    intro e he
    rcases List.mem_map.mp he with ⟨f, hf, rfl⟩
    exact endsWithZst_append f.1
  have hndD : ((src.map (fun f => (f.1 ++ ".zst", ext.C cfg.zstd_level f.2))).map
      (fun e => stripZstExt e.1)).Nodup := by
    have h2 : (src.map (fun f => (f.1 ++ ".zst", ext.C cfg.zstd_level f.2))).map
        (fun e => stripZstExt e.1) = src.map Prod.fst := by
      rw [List.map_map]
      exact List.map_eq_map_iff.mpr (fun f _ => stripZstExt_append f.1)
    rw [h2]
    exact hnodup
  have hfoldD := foldl_upsert_append (fun e => stripZstExt e.1)
    (fun e => ext.D e.2) (src.map (fun f => (f.1 ++ ".zst", ext.C cfg.zstd_level f.2)))
    [] hndD (fun _ _ => rfl)
  have houtput : (src.map (fun f => (f.1 ++ ".zst", ext.C cfg.zstd_level f.2))).map
      (fun e => (stripZstExt e.1, ext.D e.2)) = src := by
    rw [List.map_map]
    have hpt : ∀ f ∈ src,
        ((fun e : String × Bytes => (stripZstExt e.1, ext.D e.2)) ∘
          (fun f : String × Bytes => (f.1 ++ ".zst", ext.C cfg.zstd_level f.2))) f
          = id f := by
      intro f _
      show (stripZstExt (f.1 ++ ".zst"), ext.D (ext.C cfg.zstd_level f.2)) = f
      rw [stripZstExt_append, hinv]
    rw [List.map_eq_map_iff.mpr hpt, List.map_id]
  simp only [dump, hidx', hdirs', htar, hfil]
  rw [hfoldD, List.nil_append, houtput]
  simp only [Bool.false_eq_true, if_false]

theorem store_dump_roundtrip_witness :
    (∀ b : Bytes, ext0.D (ext0.C cfg0.zstd_level b) = b) ∧
    ∃ (st' : RackState) (names : List String),
      store ext0 cfg0 ⟨[], []⟩ "m" [] (some src0) "logs-debug" "d" false
        = .ok (st', src0) ∧
      dump ext0 st' (hash_commit ext0.H "m" []) [] false = .ok (st', src0, names) ∧
      ("a.txt", helloBytes) ∈ src0 ∧ ("sub/b.txt", worldBytes) ∈ src0 :=
  ⟨fun _ => rfl,
   store_dump_roundtrip ext0 cfg0 ⟨[], []⟩ "m" "logs-debug" "d" [] src0
     (fun _ => rfl) rfl rfl (fun _ _ => rfl) (by decide) (by decide) rfl rfl
     (by decide) (by decide)⟩

/-- **C6.** A file whose relative path matches a configured exclude
pattern is skipped by the gathering loop (lines 152-159): it never enters
the working file list, so the recorded `file_count` (the length of that
list) does not count it, and every binding of the compressed output comes
from a non-excluded file. -/
theorem exclusion_correct (ext : Ext) (cfg : Config) (st : RackState)
    (msg srcRel now : String) (tags : List (String × String))
    (src : List (String × Bytes)) (rel pat : String)
    (hpat : pat ∈ cfg.exclude) (hm : ext.fnmatch rel pat = true)
    (hmode : cfg.compress_mode = "files")
    (hidx : alookup st.index (hash_commit ext.H msg tags) = none)
    (hdir : alookup st.storeDirs (hash_commit ext.H msg tags) = none) :
    (∀ c : Bytes, ¬ (rel, c) ∈ gatherFiles ext cfg src) ∧
    ∃ st' : RackState,
      store ext cfg st msg tags (some src) srcRel now false = .ok (st', src) ∧
      alookup st'.index (hash_commit ext.H msg tags)
        = some (mkEntry msg now (totalSize ext cfg (gatherFiles ext cfg src))
            (gatherFiles ext cfg src).length (hash_commit ext.H msg tags) srcRel tags) ∧
      alookup st'.storeDirs (hash_commit ext.H msg tags)
        = some (writeFiles ext cfg [] (gatherFiles ext cfg src)) ∧
      ∀ e ∈ writeFiles ext cfg [] (gatherFiles ext cfg src),
        ∃ f ∈ gatherFiles ext cfg src,
          e = (destPath cfg f.1, ext.C cfg.zstd_level f.2) := by
  have hX : cfg.exclude.any (fun p => ext.fnmatch rel p) = true :=
    List.any_eq_true.mpr ⟨pat, hpat, hm⟩
  constructor
  · intro c hc
    have h2 := (List.mem_filter.mp hc).2
    have h3 : cfg.exclude.any (fun p => ext.fnmatch rel p) = false := by
      simpa using h2
    rw [hX] at h3
    cases h3
  · have hspec := store_files_spec ext cfg st msg srcRel now tags src false hmode hidx
    rw [hdir] at hspec
    refine ⟨_, hspec, alookup_upsert_self _ _ _, alookup_upsert_self _ _ _, ?_⟩
    intro e he
    rcases mem_foldl_upsert (fun f => destPath cfg f.1)
        (fun f => ext.C cfg.zstd_level f.2) (gatherFiles ext cfg src) [] e he with
      h | ⟨f, hf, rfl⟩
    · cases h
    · exact ⟨f, hf, rfl⟩

theorem exclusion_correct_witness :
    ("*.tmp" ∈ cfgX.exclude ∧ extM.fnmatch "x.tmp" "*.tmp" = true) ∧
    ((∀ c : Bytes, ¬ ("x.tmp", c) ∈ gatherFiles extM cfgX [("a.txt", [1]), ("x.tmp", [2])]) ∧
     ∃ st' : RackState,
       store extM cfgX ⟨[], []⟩ "m" [] (some [("a.txt", [1]), ("x.tmp", [2])])
           "logs-debug" "d" false = .ok (st', [("a.txt", [1]), ("x.tmp", [2])]) ∧
       alookup st'.index (hash_commit extM.H "m" [])
         = some (mkEntry "m" "d"
             (totalSize extM cfgX (gatherFiles extM cfgX [("a.txt", [1]), ("x.tmp", [2])]))
             (gatherFiles extM cfgX [("a.txt", [1]), ("x.tmp", [2])]).length
             (hash_commit extM.H "m" []) "logs-debug" []) ∧
       alookup st'.storeDirs (hash_commit extM.H "m" [])
         = some (writeFiles extM cfgX [] (gatherFiles extM cfgX [("a.txt", [1]), ("x.tmp", [2])])) ∧
       ∀ e ∈ writeFiles extM cfgX [] (gatherFiles extM cfgX [("a.txt", [1]), ("x.tmp", [2])]),
         ∃ f ∈ gatherFiles extM cfgX [("a.txt", [1]), ("x.tmp", [2])],
           e = (destPath cfgX f.1, extM.C cfgX.zstd_level f.2)) :=
  ⟨⟨by decide, rfl⟩,
   exclusion_correct extM cfgX ⟨[], []⟩ "m" "logs-debug" "d" []
     [("a.txt", [1]), ("x.tmp", [2])] "x.tmp" "*.tmp" (by decide) rfl rfl rfl rfl⟩

/-- **C8 counterexample.** The claim that `compress_file` processes its
input in bounded-memory chunks of some fixed buffer size is false: its
single `fsrc.read()` reads the whole file, so no bound covers the read
sizes of all inputs. -/
theorem compress_reads_unbounded_cex :
    ¬ ∃ B : Nat, ∀ src : Bytes, ∀ r ∈ compress_file_reads src, r ≤ B := by
  rintro ⟨B, h⟩
  have hB := h (List.replicate (B + 1) 0) (B + 1)
    (by simp [compress_file_reads])
  omega

/-- **C8 amended.** `compress_file` and `decompress_file` buffer the whole
file: each issues exactly one read of the full input length
(`fsrc.read()` / `fdst.write(...)`, lines 113-114 and 118-119), and these
read sizes exceed every fixed bound. -/
theorem pipeline_whole_file_buffering (B : Nat) :
    (∀ src : Bytes, compress_file_reads src = [src.length] ∧
      decompress_file_reads src = [src.length]) ∧
    (∃ src : Bytes, ∃ r ∈ compress_file_reads src, B < r) ∧
    (∃ src : Bytes, ∃ r ∈ decompress_file_reads src, B < r) := by
  refine ⟨fun src => ⟨rfl, rfl⟩, ⟨List.replicate (B + 1) 0, B + 1, ?_, ?_⟩,
    ⟨List.replicate (B + 1) 0, B + 1, ?_, ?_⟩⟩ <;>
    simp [compress_file_reads, decompress_file_reads]

end Rack
